import Mathlib

/-!
Verification of the HTTP/1.1 message codec and drivers of the
basic_webserver_client repository (http.c, http.h, server.c, client.c).

The wire level is modelled shallowly:

* a byte stream is a `List Char` (one `Char` per byte; C strings are
  NUL-free, so quantified theorems over caller-supplied text carry
  explicit `≠ '\x00'` hypotheses where the distinction could matter);
* `getline` splits a stream at `'\n'` bytes, keeping the terminator, and
  fails exactly when no bytes remain — `toLines` below applies it
  exhaustively, so the decoding functions are defined on the resulting
  `List (List Char)` of lines;
* `strtok_r` with delimiter set `" "` is modelled as a pure function
  returning the token together with the continuation position (the C
  `saveptr`);
* allocation failures (`malloc`/`strndup`/`realloc` returning NULL) and
  stream write failures are not modelled: every allocation and write is
  assumed to succeed.  The realloc doubling schedule of `extract_header`
  is therefore invisible, as the spec itself notes it is unobservable.

Error codes follow http.c literally: `0` success, `-1` generic failure,
`-2` malformed head, `-3` malformed headers.  The code's tests
`errno == EOF` (http.c lines 46, 296, 349) compare `errno`, which is
`0` or a positive error number after a failed `getline`, with the stdio
constant `EOF = -1`; the comparison is therefore always false and the
embedding takes the false branch unconditionally.
-/

set_option maxRecDepth 100000

deriving instance DecidableEq for Except

/-- Characters of a string literal, used to write wire bytes in the model. -/
def chars (s : String) : List Char := s.data

/-- The CRLF line terminator used throughout the wire format. -/
def crlf : List Char := ['\r', '\n']

/-- HTTP methods, from the `http_method` enum in http.h. -/
inductive http_method where
  | HTTP_GET
  | HTTP_HEAD
  | HTTP_POST
  | HTTP_PUT
  | HTTP_DELETE
  | HTTP_CONNECT
  | HTTP_OPTIONS
  | HTTP_TRACE
  | HTTP_PATCH
deriving DecidableEq, Repr

/-- One HTTP header, from the `http_header` struct in http.h. -/
structure http_header where
  key : List Char
  value : List Char
deriving DecidableEq, Repr

/-- An HTTP request, from the `http_req` struct in http.h.  The body is
the sequence of bytes remaining in the attached `FILE *` from its
current read position (`none` when `req->body == NULL`); `recv_req`
never populates it. -/
structure http_req where
  method : http_method
  path : List Char
  header : List http_header
  body : Option (List Char)
deriving DecidableEq, Repr

/-- An HTTP status code, from the `http_status_code` struct in http.h. -/
structure http_status_code where
  code : Int
  description : List Char
deriving DecidableEq, Repr

/-- An HTTP response as populated by `recv_res` (the send-only `body`
handle of the C struct is omitted: `recv_res` never sets it). -/
structure http_res where
  status_code : http_status_code
  header : List http_header
deriving DecidableEq, Repr

/-- The method-name table `HTTP_METHOD_STRINGS` of http.c lines 15-25. -/
def HTTP_METHOD_STRINGS : http_method → List Char
  | .HTTP_GET => chars "GET"
  | .HTTP_HEAD => chars "HEAD"
  | .HTTP_POST => chars "POST"
  | .HTTP_PUT => chars "PUT"
  | .HTTP_DELETE => chars "DELETE"
  | .HTTP_CONNECT => chars "CONNECT"
  | .HTTP_OPTIONS => chars "OPTIONS"
  | .HTTP_TRACE => chars "TRACE"
  | .HTTP_PATCH => chars "PATCH"

/-- The method-recognition loop of recv_req (http.c lines 358-368): the
token is compared with each entry of `HTTP_METHOD_STRINGS` in enum
order and the first match wins; no match leaves `req->method == -1`. -/
def method_of_token (t : List Char) : Option http_method :=
  if t = HTTP_METHOD_STRINGS .HTTP_GET then some .HTTP_GET
  else if t = HTTP_METHOD_STRINGS .HTTP_HEAD then some .HTTP_HEAD
  else if t = HTTP_METHOD_STRINGS .HTTP_POST then some .HTTP_POST
  else if t = HTTP_METHOD_STRINGS .HTTP_PUT then some .HTTP_PUT
  else if t = HTTP_METHOD_STRINGS .HTTP_DELETE then some .HTTP_DELETE
  else if t = HTTP_METHOD_STRINGS .HTTP_CONNECT then some .HTTP_CONNECT
  else if t = HTTP_METHOD_STRINGS .HTTP_OPTIONS then some .HTTP_OPTIONS
  else if t = HTTP_METHOD_STRINGS .HTTP_TRACE then some .HTTP_TRACE
  else if t = HTTP_METHOD_STRINGS .HTTP_PATCH then some .HTTP_PATCH
  else none

/-- One call of `strtok_r(s, " ", &saveptr)` on the remaining input `s`:
skip leading delimiters; if nothing is left, return NULL; otherwise the
token runs to the next delimiter, which (when present) is overwritten
with NUL so that the saved position starts immediately after it. -/
def strtok_r (s : List Char) : Option (List Char × List Char) :=
  let s2 := s.dropWhile (fun c => c == ' ')
  if s2.isEmpty then none
  else
    let tok := s2.takeWhile (fun c => c != ' ')
    some (tok, (s2.drop tok.length).drop 1)

/-- C `isspace` in the default locale, as used by `strtol`. -/
def isSpaceC (c : Char) : Bool :=
  c == ' ' || c == '\t' || c == '\n' || c == '\x0b' || c == '\x0c' || c == '\r'

/-- C `isdigit`. -/
def isDigitC (c : Char) : Bool := '0' ≤ c && c ≤ '9'

/-- Numeric value of a digit string (most significant digit first). -/
def digitsToNat (ds : List Char) : Nat :=
  ds.foldl (fun n c => 10 * n + (c.toNat - 48)) 0

/-- Model of `strtol(s, &endptr, 10)`: skip `isspace` characters, an
optional sign, then digits; the result is the parsed value paired with
the suffix `endptr` points into.  When no digits are consumed, the
value is 0 and `endptr` is reset to the start of the input, as the C
standard requires.  Overflow clamping to `LONG_MAX`/`LONG_MIN` is not
modelled (the status codes exercised fit easily in a long). -/
def strtol10 (s : List Char) : Int × List Char :=
  let afterWs := s.dropWhile isSpaceC
  let neg := afterWs.head? == some '-'
  let afterSign :=
    if afterWs.head? == some '-' || afterWs.head? == some '+' then afterWs.tail else afterWs
  let digits := afterSign.takeWhile isDigitC
  if digits.isEmpty then (0, s)
  else
    (if neg then -(digitsToNat digits : Int) else (digitsToNat digits : Int),
     afterSign.drop digits.length)

/-- Worker for `toLines`: accumulates the current line in reverse. -/
def toLinesGo (acc : List Char) : List Char → List (List Char)
  | [] => if acc.isEmpty then [] else [acc.reverse]
  | c :: rest =>
    if c = '\n' then (c :: acc).reverse :: toLinesGo [] rest
    else toLinesGo (c :: acc) rest

/-- Exhaustive application of `getline`: splits a byte stream into the
lines successive `getline` calls return.  Each line keeps its `'\n'`
terminator; a final chunk without a terminator is still returned as a
line (as `getline` does at end of input); once no bytes remain,
`getline` fails, which the decoders below see as the end of this list. -/
def toLines (s : List Char) : List (List Char) := toLinesGo [] s

/-- Model of `extract_header` (http.c lines 36-91) on the remaining
lines of the stream.  A line equal to `"\r\n"` ends the loop; otherwise
`strcspn(buf, ":")` locates the first colon — its absence is error
`-3` — the key is everything before it, and the value is everything
after it with leading `' '` bytes stripped, cut by
`strcspn(value, "\r\n")` at the first `'\r'` or `'\n'`.  At end of
input `getline` fails and the code runs `*err = errno == EOF ? -3 : -1`;
`errno` is nonnegative while `EOF` is `-1`, so the error is `-1`. -/
def extract_header : List (List Char) → Except Int (List http_header)
  | [] => .error (-1)
  | line :: rest =>
    if line = crlf then .ok []
    else
      let afterKey := line.dropWhile (fun c => c != ':')
      if afterKey.head? = some ':' then
        let key := line.takeWhile (fun c => c != ':')
        let value0 := afterKey.tail.dropWhile (fun c => c == ' ')
        let value := value0.takeWhile (fun c => !(c == '\r' || c == '\n'))
        match extract_header rest with
        | .ok hs => .ok (⟨key, value⟩ :: hs)
        | .error e => .error e
      else .error (-3)

/-- Model of `recv_req` (http.c lines 341-399) on the lines of the
stream.  An empty stream makes the first `getline` fail and the code
runs `return errno == EOF ? -2 : -1`; `errno` is nonnegative while
`EOF` is `-1`, so the result is `-1`.  Otherwise three `strtok_r` calls
split the request line on runs of spaces: the first token must name a
method, the second must start with `'/'` and becomes the path, the
third must equal `"HTTP/1.1\r\n"`; then `extract_header` runs on the
remaining lines.  The body field is never populated. -/
def recv_req (lns : List (List Char)) : Except Int http_req :=
  match lns with
  | [] => .error (-1)
  | line :: rest =>
    match strtok_r line with
    | none => .error (-2)
    | some (t1, save1) =>
      match method_of_token t1 with
      | none => .error (-2)
      | some m =>
        match strtok_r save1 with
        | none => .error (-2)
        | some (t2, save2) =>
          if t2.head? = some '/' then
            match strtok_r save2 with
            | none => .error (-2)
            | some (t3, _) =>
              if t3 = chars "HTTP/1.1\r\n" then
                match extract_header rest with
                | .ok hs => .ok ⟨m, t2, hs, none⟩
                | .error e => .error e
              else .error (-2)
          else .error (-2)

/-- Model of `recv_res` (http.c lines 288-339) on the lines of the
stream.  An empty stream hits `return errno == EOF ? -2 : -1`, which is
`-1` (see `recv_req`).  The first token must equal `"HTTP/1.1"`; the
second is fed to `strtol` and `*endptr` must be NUL; the description is
the rest of the line after the token (through `saveptr`), cut at the
first `'\r'` or `'\n'`, or `""` when nothing follows the code token. -/
def recv_res (lns : List (List Char)) : Except Int http_res :=
  match lns with
  | [] => .error (-1)
  | line :: rest =>
    match strtok_r line with
    | none => .error (-2)
    | some (t1, save1) =>
      if t1 = chars "HTTP/1.1" then
        match strtok_r save1 with
        | none => .error (-2)
        | some (t2, save2) =>
          let parsed := strtol10 t2
          if parsed.2 = [] then
            let description :=
              if save2 = [] then []
              else save2.takeWhile (fun c => !(c == '\r' || c == '\n'))
            match extract_header rest with
            | .ok hs => .ok ⟨⟨parsed.1, description⟩, hs⟩
            | .error e => .error e
          else .error (-2)
      else .error (-2)

/-- `recv_req` on a raw byte stream: `getline` linewise reading is
applied via `toLines`. -/
def recv_req_bytes (s : List Char) : Except Int http_req := recv_req (toLines s)

/-- `recv_res` on a raw byte stream. -/
def recv_res_bytes (s : List Char) : Except Int http_res := recv_res (toLines s)

/-- The request line emitted by `send_req` (http.c line 181):
`fprintf(stream, "%s /%s HTTP/1.1\r\n", method,
path[0] == '/' ? &path[1] : path)` — one slash is always printed and a
single caller-supplied leading slash is skipped. -/
def request_line (m : http_method) (path : List Char) : List Char :=
  HTTP_METHOD_STRINGS m ++ (chars " /" ++
    ((if path.head? = some '/' then path.tail else path) ++ (chars " HTTP/1.1" ++ crlf)))

/-- One header line emitted by `send_req`/`send_res`:
`fprintf(stream, "%s: %s\r\n", key, value)`. -/
def header_line (h : http_header) : List Char :=
  h.key ++ (':' :: ' ' :: (h.value ++ crlf))

/-- The `Content-Length` header emitted by `send_req` (http.c lines
191-198) when a body is attached: the length is the number of bytes
between the body's current position and its end, measured with
`ftell`/`fseek`. -/
def content_length_hdr : Option (List Char) → List Char
  | none => []
  | some b => chars "Content-Length: " ++ ((Nat.repr b.length).data ++ crlf)

/-- The head `send_req` writes (http.c lines 180-202): request line,
the caller's headers in order, `Content-Length` when a body is
attached, then the single write `"Connection: close\r\n\r\n"` closing
the header block. -/
def send_req_head (req : http_req) : List Char :=
  request_line req.method req.path ++
    ((req.header.map header_line).flatten ++
      (content_length_hdr req.body ++ chars "Connection: close\r\n\r\n"))

/-- The body bytes `send_req` writes after the head (http.c lines
204-222).  The loop calls `fread(buffer, 1024, 1, body)`, which reads
`min 1024 (remaining)` bytes and returns the number of complete
1024-byte items, i.e. `1` when at least 1024 bytes remained and `0`
otherwise; `fwrite(buffer, read_ln, 1, stream)` then writes `read_ln`
bytes (`read_ln * 1`); since `read_ln ≤ 1 < 1024`, the guard
`if (read_ln < 1024) break;` fires on the first pass, so the loop body
runs exactly once and at most one byte of the body reaches the wire. -/
def send_req_body : Option (List Char) → List Char
  | none => []
  | some b =>
    let read_ln := if 1024 ≤ b.length then 1 else 0
    (b.take 1024).take read_ln

/-- Everything `send_req` writes: head then (buggy) body copy. -/
def send_req (req : http_req) : List Char :=
  send_req_head req ++ send_req_body req.body

/-- How the server's accept loop dispatches on the result of `recv_req`
(server.c lines 143-159): `-2` and `-3` print "Received malformed
packet" to stderr, drain the header with `clear_http_head`, send a 400
response and continue; any other nonzero code runs
`perror("Error while reading request")`, closes the connection and
continues; `0` proceeds to handle the request. -/
inductive DispatchAction where
  | send400AndContinue
  | perrorAndContinue
  | handleRequest
deriving DecidableEq, Repr

/-- Dispatch on the `recv_req` return code, server.c lines 144-159. -/
def server_recv_dispatch (code : Int) : DispatchAction :=
  if code = -2 ∨ code = -3 then .send400AndContinue
  else if code ≠ 0 then .perrorAndContinue
  else .handleRequest

/-- Whether the dispatch branch writes an error message to standard
error: the 400 branch prints "Received malformed packet" (server.c
line 145) and the other error branch calls `perror` (line 156). -/
def DispatchAction.logsToStderr : DispatchAction → Bool
  | .send400AndContinue => true
  | .perrorAndContinue => true
  | .handleRequest => false

/-- Whether the dispatch branch closes the connection and continues the
accept loop (both error branches do, server.c lines 150-158). -/
def DispatchAction.closesAndContinues : DispatchAction → Bool
  | .send400AndContinue => true
  | .perrorAndContinue => true
  | .handleRequest => false

/-- Server configuration after argument parsing: document root and
index file name (server.c `args_t`). -/
structure server_args where
  doc_root : List Char
  index : List Char
deriving DecidableEq, Repr

/-- Outcome of `fopen(path, "r")` as the server distinguishes it via
`errno` (server.c lines 206-234). -/
inductive FileResult where
  | found (content : List Char)
  | notFound
  | permissionDenied
  | otherFailure
deriving DecidableEq, Repr

/-- Filesystem path resolution of server.c lines 171-202: empty request
path gives `doc_root/index`; a path ending in `'/'` gives
`doc_root ++ path ++ index`; otherwise `doc_root ++ path`. -/
def resolve_path (args : server_args) (reqPath : List Char) : List Char :=
  if reqPath = [] then args.doc_root ++ ('/' :: args.index)
  else if reqPath.getLast? = some '/' then args.doc_root ++ (reqPath ++ args.index)
  else args.doc_root ++ reqPath

/-- One response as the model tracks it: status code, reason phrase and
whether a body is attached.  Header contents (Date, Content-Length,
Content-Type) are emitted by `send_res` but are not needed by any
claim, so they are not tracked here. -/
structure response_sent where
  code : Int
  description : List Char
  hasBody : Bool
deriving DecidableEq, Repr

/-- The single response produced by the file-serving part of the server
loop (server.c lines 206-262): 404 for `ENOENT`, 403 for `EACCES`, 500
for other `fopen` failures, 200 with the file as body on success. -/
def serve_file : FileResult → response_sent
  | .notFound => ⟨404, chars "Not Found", false⟩
  | .permissionDenied => ⟨403, chars "Forbidden", false⟩
  | .otherFailure => ⟨500, chars "Internal Server Error", false⟩
  | .found _ => ⟨200, chars "OK", true⟩

/-- The sequence of responses the server sends for one successfully
decoded request (server.c lines 161-262), with the filesystem abstracted
as a function from resolved path to `FileResult` and every `send_res`
assumed to succeed: a non-GET method first gets a 501 with no body
(lines 161-169) and — since that branch does not return — the code then
still resolves the path and serves the file like any GET. -/
def server_handle_request (args : server_args) (fs : List Char → FileResult)
    (req : http_req) : List response_sent :=
  (if req.method ≠ .HTTP_GET then [⟨501, chars "Not implemented", false⟩] else [])
    ++ [serve_file (fs (resolve_path args req.path))]

/-- What the client does after `recv_res`, summarised: process exit
code, bytes printed to standard error, and body bytes copied to the
output sink. -/
structure client_result where
  exitCode : Int
  errOutput : List Char
  bodyOut : List Char
deriving DecidableEq, Repr

/-- Client behaviour after `recv_res` returns (client.c lines 356-404),
with `bodyBytes` the bytes remaining on the connection after the header
block.  Decode errors `-2`/`-3` print "Protocol error!" and exit 2;
any other nonzero code calls `perror` (its output is modelled as just
the fixed message prefix) and exits `EXIT_FAILURE = 1`.  A status code
other than 200 prints `"%ld %s\n"` (code and description) to stderr
and exits 3 before the body-copy loop, so no body bytes are written.
Status 200 copies all remaining bytes to the sink and exits 0. -/
def client_handle_response (r : Except Int http_res) (bodyBytes : List Char) :
    client_result :=
  match r with
  | .error e =>
    if e = -2 ∨ e = -3 then ⟨2, chars "Protocol error!\n", []⟩
    else ⟨1, chars "Error while receiving response", []⟩
  | .ok res =>
    if res.status_code.code ≠ 200 then
      ⟨3, (toString res.status_code.code).data ++ (' ' :: (res.status_code.description ++ ['\n'])), []⟩
    else ⟨0, [], bodyBytes⟩

/-! Helper lemmas about `takeWhile`/`dropWhile` on appended lists, used
to step the tokenizer and header parser through wire fragments. -/

theorem takeWhile_append_stop {p : Char → Bool} {t : List Char} (c : Char) (r : List Char)
    (ht : ∀ x ∈ t, p x = true) (hc : p c = false) :
    (t ++ c :: r).takeWhile p = t := by
  induction t with
  | nil => simp [List.takeWhile_cons, hc]
  | cons a t ih =>
    have ha : p a = true := ht a (List.mem_cons_self a t)
    simp only [List.cons_append, List.takeWhile_cons, ha, if_true]
    rw [ih (fun x hx => ht x (List.mem_cons_of_mem a hx))]

theorem dropWhile_append_stop {p : Char → Bool} {t : List Char} (c : Char) (r : List Char)
    (ht : ∀ x ∈ t, p x = true) (hc : p c = false) :
    (t ++ c :: r).dropWhile p = c :: r := by
  induction t with
  | nil => simp [List.dropWhile_cons, hc]
  | cons a t ih =>
    have ha : p a = true := ht a (List.mem_cons_self a t)
    simp only [List.cons_append, List.dropWhile_cons, ha, if_true]
    exact ih (fun x hx => ht x (List.mem_cons_of_mem a hx))

theorem takeWhile_of_all {p : Char → Bool} {t : List Char}
    (ht : ∀ x ∈ t, p x = true) : t.takeWhile p = t := by
  induction t with
  | nil => rfl
  | cons a t ih =>
    have ha : p a = true := ht a (List.mem_cons_self a t)
    simp only [List.takeWhile_cons, ha, if_true]
    rw [ih (fun x hx => ht x (List.mem_cons_of_mem a hx))]

theorem dropWhile_head_stop {p : Char → Bool} {t : List Char}
    (ht : t.head?.all (fun c => !p c) = true) : t.dropWhile p = t := by
  cases t with
  | nil => rfl
  | cons a t =>
    simp only [List.head?_cons, Option.all_some, Bool.not_eq_true'] at ht
    simp [List.dropWhile_cons, ht]

/-! Facts about `strtok_r` needed to parse start lines. -/

theorem strtok_r_sep {t : List Char} (r : List Char) (hne : t ≠ [])
    (hsp : ∀ x ∈ t, x ≠ ' ') :
    strtok_r (t ++ ' ' :: r) = some (t, r) := by
  obtain ⟨a, t', rfl⟩ := List.exists_cons_of_ne_nil hne
  have hsp' : ∀ x ∈ a :: t', (x != ' ') = true := by
    intro x hx; simpa using hsp x hx
  have ha : (a == ' ') = false := by
    simpa using hsp a (List.mem_cons_self a t')
  unfold strtok_r
  rw [List.cons_append, List.dropWhile_cons_of_neg (by simp [ha])]
  rw [← List.cons_append]
  simp only [List.isEmpty_eq_true, List.append_eq_nil, List.cons_ne_nil, false_and,
    if_false]
  rw [takeWhile_append_stop ' ' r hsp' (by simp)]
  rw [List.drop_left, List.drop_one, List.tail_cons]

theorem strtok_r_whole {t : List Char} (hne : t ≠ []) (hsp : ∀ x ∈ t, x ≠ ' ') :
    strtok_r t = some (t, []) := by
  obtain ⟨a, t', rfl⟩ := List.exists_cons_of_ne_nil hne
  have hsp' : ∀ x ∈ a :: t', (x != ' ') = true := by
    intro x hx; simpa using hsp x hx
  have ha : (a == ' ') = false := by
    simpa using hsp a (List.mem_cons_self a t')
  unfold strtok_r
  rw [List.dropWhile_cons_of_neg (by simp [ha])]
  simp only [List.isEmpty_cons, if_false, Bool.false_eq_true]
  rw [takeWhile_of_all hsp']
  rw [List.drop_length]
  rfl

theorem strtok_r_leading_spaces (k : Nat) (r : List Char) :
    strtok_r (List.replicate k ' ' ++ r) = strtok_r r := by
  have h : (List.replicate k ' ' ++ r).dropWhile (fun c => c == ' ')
      = r.dropWhile (fun c => c == ' ') := by
    induction k with
    | zero => rfl
    | succ k ih =>
      rw [List.replicate_succ, List.cons_append, List.dropWhile_cons_of_pos (by simp)]
      exact ih
  simp only [strtok_r, h]

/-! Facts about `toLines`: how `getline` cuts a concatenation of
terminated lines back into those lines. -/

theorem toLinesGo_line {A : List Char} (B acc : List Char) (hA : '\n' ∉ A) :
    toLinesGo acc (A ++ '\n' :: B) = (acc.reverse ++ (A ++ ['\n'])) :: toLines B := by
  induction A generalizing acc with
  | nil => simp [toLinesGo, toLines]
  | cons c A ih =>
    have hc : c ≠ '\n' := fun h => hA (h ▸ List.mem_cons_self c A)
    simp only [List.cons_append, toLinesGo, if_neg hc, List.append_eq]
    rw [ih (c :: acc) (fun h => hA (List.mem_cons_of_mem c h))]
    simp

theorem toLines_line {A : List Char} (B : List Char) (hA : '\n' ∉ A) :
    toLines (A ++ '\n' :: B) = (A ++ ['\n']) :: toLines B := by
  unfold toLines
  rw [toLinesGo_line B [] hA]
  rfl

theorem toLines_flatten : ∀ ls : List (List Char),
    (∀ l ∈ ls, ∃ A, l = A ++ ['\n'] ∧ '\n' ∉ A) → toLines ls.flatten = ls
  | [], _ => rfl
  | x :: xs, h => by
    obtain ⟨A, hx, hA⟩ := h x (List.mem_cons_self x xs)
    rw [List.flatten_cons, hx, List.append_assoc, List.singleton_append, toLines_line _ hA,
      toLines_flatten xs (fun y hy => h y (List.mem_cons_of_mem x hy))]

/-! Facts about the method table. -/

theorem method_string_ne_nil (m : http_method) : HTTP_METHOD_STRINGS m ≠ [] := by
  cases m <;> decide

theorem method_string_no_space (m : http_method) : ∀ x ∈ HTTP_METHOD_STRINGS m, x ≠ ' ' := by
  cases m <;> decide

theorem method_string_no_lf (m : http_method) : '\n' ∉ HTTP_METHOD_STRINGS m := by
  cases m <;> decide

theorem method_of_token_string (m : http_method) :
    method_of_token (HTTP_METHOD_STRINGS m) = some m := by
  cases m <;> rfl

/-! Stepping lemmas for `extract_header`. -/

theorem extract_header_cons_line (k t : List Char) (rest : List (List Char))
    (hk : ∀ x ∈ k, x ≠ ':') :
    extract_header ((k ++ (':' :: t)) :: rest) =
      match extract_header rest with
      | .ok hs =>
        .ok (⟨k, (t.dropWhile (fun c => c == ' ')).takeWhile
              (fun c => !(c == '\r' || c == '\n'))⟩ :: hs)
      | .error e => .error e := by
  have hk' : ∀ x ∈ k, (x != ':') = true := by intro x hx; simpa using hk x hx
  have hne : k ++ (':' :: t) ≠ crlf := by
    intro h
    have : ':' ∈ crlf := by
      rw [← h]; exact List.mem_append_right k (List.mem_cons_self ':' t)
    simp [crlf] at this
  simp only [extract_header, if_neg hne]
  rw [dropWhile_append_stop ':' t hk' (by simp)]
  rw [takeWhile_append_stop ':' t hk' (by simp)]
  simp

theorem extract_header_header_line (h : http_header) (rest : List (List Char))
    (hk : ∀ x ∈ h.key, x ≠ ':')
    (hv : ∀ c ∈ h.value, c ≠ '\r' ∧ c ≠ '\n') (hv1 : h.value.head? ≠ some ' ') :
    extract_header (header_line h :: rest) =
      match extract_header rest with
      | .ok hs => .ok (h :: hs)
      | .error e => .error e := by
  unfold header_line
  rw [extract_header_cons_line h.key (' ' :: (h.value ++ crlf)) rest hk]
  have hval : ((' ' :: (h.value ++ crlf)).dropWhile (fun c => c == ' ')).takeWhile
      (fun c => !(c == '\r' || c == '\n')) = h.value := by
    rw [List.dropWhile_cons_of_pos (by simp)]
    have hdrop : (h.value ++ crlf).dropWhile (fun c => c == ' ') = h.value ++ crlf := by
      apply dropWhile_head_stop
      cases hval : h.value with
      | nil => simp [crlf]
      | cons a v =>
        have : a ≠ ' ' := by
          intro h'; exact hv1 (by rw [hval, h']; rfl)
        simp [this]
    rw [hdrop]
    have hv' : ∀ x ∈ h.value, (!(x == '\r' || x == '\n')) = true := by
      intro x hx
      have := hv x hx
      simp [this.1, this.2]
    have : h.value ++ crlf = h.value ++ '\r' :: ['\n'] := rfl
    rw [this, takeWhile_append_stop '\r' ['\n'] hv' (by simp)]
  rw [hval]

theorem extract_header_wire (hs : List http_header) (rest : List (List Char))
    (hh : ∀ h ∈ hs, (∀ x ∈ h.key, x ≠ ':') ∧
      (∀ c ∈ h.value, c ≠ '\r' ∧ c ≠ '\n') ∧ h.value.head? ≠ some ' ') :
    extract_header (hs.map header_line ++ rest) =
      match extract_header rest with
      | .ok tl => .ok (hs ++ tl)
      | .error e => .error e := by
  induction hs with
  | nil =>
    simp only [List.map_nil, List.nil_append]
    cases extract_header rest <;> rfl
  | cons h hs ih =>
    obtain ⟨hk, hv, hv1⟩ := hh h (List.mem_cons_self h hs)
    simp only [List.map_cons, List.cons_append]
    rw [extract_header_header_line h _ hk hv hv1]
    rw [ih (fun x hx => hh x (List.mem_cons_of_mem h hx))]
    cases extract_header rest <;> rfl

/-! Decomposition of the bytes `send_req` writes for a bodyless request
into `getline` lines, and the shape of each line. -/

/-- The header every encoder appends last: `Connection: close`. -/
def connection_close_header : http_header := ⟨chars "Connection", chars "close"⟩

theorem header_line_shape (h : http_header) (hk : '\n' ∉ h.key) (hv : '\n' ∉ h.value) :
    ∃ A, header_line h = A ++ ['\n'] ∧ '\n' ∉ A := by
  refine ⟨h.key ++ (':' :: ' ' :: (h.value ++ ['\r'])), ?_, ?_⟩
  · simp [header_line, crlf]
  · intro hmem
    rcases List.mem_append.mp hmem with h1 | h1
    · exact hk h1
    · simp only [List.mem_cons] at h1
      rcases h1 with h1 | h1 | h1
      · exact absurd h1 (by decide)
      · exact absurd h1 (by decide)
      · rcases List.mem_append.mp h1 with h2 | h2
        · exact hv h2
        · exact absurd h2 (by decide)

theorem request_line_shape (m : http_method) (p : List Char)
    (hp : ∀ c ∈ p, c ≠ '\n') :
    ∃ A, request_line m ('/' :: p) = A ++ ['\n'] ∧ '\n' ∉ A := by
  refine ⟨HTTP_METHOD_STRINGS m ++ (chars " /" ++ (p ++ chars " HTTP/1.1\r")), ?_, ?_⟩
  · have h1 : chars " HTTP/1.1" ++ crlf = chars " HTTP/1.1\r" ++ ['\n'] := by decide
    unfold request_line
    simp only [List.head?_cons, List.tail_cons, reduceIte]
    rw [h1]
    simp [List.append_assoc]
  · intro hmem
    rcases List.mem_append.mp hmem with h1 | h1
    · exact method_string_no_lf m h1
    · rcases List.mem_append.mp h1 with h2 | h2
      · exact absurd h2 (by decide)
      · rcases List.mem_append.mp h2 with h3 | h3
        · exact hp '\n' h3 rfl
        · exact absurd h3 (by decide)

theorem send_req_wire (m : http_method) (p : List Char) (hdrs : List http_header) :
    send_req ⟨m, p, hdrs, none⟩ =
      (request_line m p ::
        ((hdrs ++ [connection_close_header]).map header_line ++ [crlf])).flatten := by
  have h1 : chars "Connection: close\r\n\r\n" =
      header_line connection_close_header ++ (crlf ++ []) := by decide
  simp only [send_req, send_req_head, send_req_body, content_length_hdr, h1,
    List.map_append, List.map_cons, List.map_nil, List.flatten_cons, List.flatten_append,
    List.flatten_nil, List.append_assoc, List.append_nil, List.nil_append]

theorem send_req_toLines (m : http_method) (p : List Char) (hdrs : List http_header)
    (hp : ∀ c ∈ p, c ≠ '\n')
    (hh : ∀ h ∈ hdrs, '\n' ∉ h.key ∧ '\n' ∉ h.value) :
    toLines (send_req ⟨m, '/' :: p, hdrs, none⟩) =
      request_line m ('/' :: p) ::
        ((hdrs ++ [connection_close_header]).map header_line ++ [crlf]) := by
  rw [send_req_wire]
  apply toLines_flatten
  intro l hl
  simp only [List.mem_cons, List.mem_append, List.mem_map, List.mem_singleton,
    List.not_mem_nil, or_false] at hl
  rcases hl with rfl | ⟨h, hmem, rfl⟩ | rfl
  · exact request_line_shape m p hp
  · rcases hmem with hmem | rfl
    · exact header_line_shape h (hh h hmem).1 (hh h hmem).2
    · exact header_line_shape connection_close_header (by decide) (by decide)
  · exact ⟨['\r'], by decide, by decide⟩

/-! Decoding a wire-shaped request: the request line splits into its
three tokens and the header block parses back. -/

theorem request_line_tokens (m : http_method) (p : List Char) :
    request_line m ('/' :: p) =
      HTTP_METHOD_STRINGS m ++ (' ' :: (('/' :: p) ++ (' ' :: chars "HTTP/1.1\r\n"))) := by
  have h1 : chars " HTTP/1.1" ++ crlf = ' ' :: chars "HTTP/1.1\r\n" := by decide
  unfold request_line
  simp only [List.head?_cons, List.tail_cons, reduceIte]
  rw [h1]
  rfl

theorem recv_req_wire_lines (m : http_method) (p : List Char) (hs : List http_header)
    (hp : ∀ c ∈ p, c ≠ ' ')
    (hh : ∀ h ∈ hs, (∀ x ∈ h.key, x ≠ ':') ∧
      (∀ c ∈ h.value, c ≠ '\r' ∧ c ≠ '\n') ∧ h.value.head? ≠ some ' ') :
    recv_req (request_line m ('/' :: p) :: (hs.map header_line ++ [crlf])) =
      .ok ⟨m, '/' :: p, hs, none⟩ := by
  have hst1 : strtok_r (request_line m ('/' :: p)) =
      some (HTTP_METHOD_STRINGS m, ('/' :: p) ++ (' ' :: chars "HTTP/1.1\r\n")) := by
    rw [request_line_tokens]
    exact strtok_r_sep _ (method_string_ne_nil m) (method_string_no_space m)
  have hst2 : strtok_r (('/' :: p) ++ (' ' :: chars "HTTP/1.1\r\n")) =
      some ('/' :: p, chars "HTTP/1.1\r\n") := by
    apply strtok_r_sep _ (List.cons_ne_nil '/' p)
    intro x hx
    rcases List.mem_cons.mp hx with rfl | hx
    · decide
    · exact hp x hx
  have hst3 : strtok_r (chars "HTTP/1.1\r\n") = some (chars "HTTP/1.1\r\n", []) := by decide
  have hext : extract_header (hs.map header_line ++ [crlf]) = .ok hs := by
    rw [extract_header_wire hs [crlf] hh]
    have h0 : extract_header [crlf] = .ok [] := by decide
    rw [h0]
    simp
  simp only [recv_req, hst1, method_of_token_string, hst2, List.head?_cons, reduceIte,
    hst3, hext]

/-- C1 counterexample: encoding the request `GET /` with no headers and
no body and decoding the produced bytes yields the header sequence
`[Connection: close]`, not the original empty sequence — `send_req`
unconditionally appends `Connection: close` to the header block, so the
decoded ordered header sequence is never equal to the one sent. -/
theorem C1_roundtrip_counterexample :
    recv_req_bytes (send_req ⟨.HTTP_GET, chars "/", [], none⟩) =
      .ok ⟨.HTTP_GET, chars "/", [connection_close_header], none⟩ ∧
    [connection_close_header] ≠ ([] : List http_header) := by
  constructor
  · decide
  · decide

/-- C1 (amended): for every request whose path starts with `"/"` and
contains no space, CR, LF or NUL, whose header keys contain no colon,
CR, LF or NUL, and whose header values contain no CR, LF or NUL and do
not start with a space, encoding with `send_req` and decoding the bytes
with `recv_req` yields the identical method and path, and the ordered
header sequence sent followed by the appended `Connection: close`
header. -/
theorem C1_roundtrip_amended (m : http_method) (p : List Char) (hdrs : List http_header)
    (hp : ∀ c ∈ p, c ≠ ' ' ∧ c ≠ '\r' ∧ c ≠ '\n' ∧ c ≠ '\x00')
    (hh : ∀ h ∈ hdrs,
      (∀ x ∈ h.key, x ≠ ':' ∧ x ≠ '\r' ∧ x ≠ '\n' ∧ x ≠ '\x00') ∧
      (∀ c ∈ h.value, c ≠ '\r' ∧ c ≠ '\n' ∧ c ≠ '\x00') ∧
      h.value.head? ≠ some ' ') :
    recv_req_bytes (send_req ⟨m, '/' :: p, hdrs, none⟩) =
      .ok ⟨m, '/' :: p, hdrs ++ [connection_close_header], none⟩ := by
  unfold recv_req_bytes
  rw [send_req_toLines m p hdrs (fun c hc => ((hp c hc).2.2).1)
    (fun h hm => ⟨fun hk => ((hh h hm).1 '\n' hk).2.2.1 rfl,
      fun hv => (((hh h hm).2.1 '\n' hv).2.1 rfl)⟩)]
  apply recv_req_wire_lines m p (hdrs ++ [connection_close_header])
    (fun c hc => (hp c hc).1)
  intro h hm
  rcases List.mem_append.mp hm with hm | hm
  · exact ⟨fun x hx => ((hh h hm).1 x hx).1,
      fun c hc => ⟨((hh h hm).2.1 c hc).1, ((hh h hm).2.1 c hc).2.1⟩,
      (hh h hm).2.2⟩
  · rcases List.mem_singleton.mp hm with rfl
    exact ⟨by decide, by decide, by decide⟩

/-- C1 witness: a concrete instance of the amended round trip, with
path `/index.html` and one `Host` header. -/
theorem C1_roundtrip_witness :
    recv_req_bytes (send_req
        ⟨.HTTP_GET, '/' :: chars "index.html", [⟨chars "Host", chars "localhost"⟩], none⟩) =
      .ok ⟨.HTTP_GET, '/' :: chars "index.html",
        [⟨chars "Host", chars "localhost"⟩, connection_close_header], none⟩ :=
  C1_roundtrip_amended .HTTP_GET (chars "index.html") [⟨chars "Host", chars "localhost"⟩]
    (by decide) (by decide)

/-- C2: code bug, evaluated at the failing inputs.  The body-copy loop
of `send_req` transmits at most one byte of any attached body: with the
3-byte body `"abc"` the full wire output is just the head — which still
announces `Content-Length: 3` — and zero body bytes follow the blank
line; with a 1025-byte body exactly one byte follows; in general the
written body is never longer than one byte, instead of the whole
remaining body the claim (and spec) require. -/
theorem C2_send_req_body_bug :
    send_req ⟨.HTTP_POST, chars "/x", [], some (chars "abc")⟩ =
      chars "POST /x HTTP/1.1\r\nContent-Length: 3\r\nConnection: close\r\n\r\n" ∧
    send_req_body (some (chars "abc")) = [] ∧
    send_req_body (some (List.replicate 1025 'a')) = ['a'] ∧
    ∀ b : List Char, (send_req_body (some b)).length ≤ 1 := by
  refine ⟨by decide, by decide, by decide, ?_⟩
  intro b
  unfold send_req_body
  by_cases h : 1024 ≤ b.length
  · simp [h]
  · simp [h]

/-- C3 counterexample: on the empty stream (peer closed before sending
anything) `recv_req` returns `-1` — the same code `http.h` documents as
generic failure and that transport errors use, because the intended
`errno == EOF` test can never be true — and the server's dispatch on
`-1` is the branch that runs `perror("Error while reading request")`,
i.e. the clean close IS logged as an error, contrary to the claim. -/
theorem C3_clean_close_counterexample :
    recv_req [] = .error (-1) ∧
    (server_recv_dispatch (-1)).logsToStderr = true := by
  constructor
  · decide
  · decide

/-- C3 (amended): when the stream is closed before any data, `recv_req`
(and `recv_res`) return the generic failure code `-1`, shared with
transport errors, and the server handles that code by logging via
`perror`, closing the connection and continuing the accept loop. -/
theorem C3_clean_close_amended :
    recv_req [] = .error (-1) ∧
    recv_res [] = .error (-1) ∧
    server_recv_dispatch (-1) = .perrorAndContinue ∧
    DispatchAction.closesAndContinues .perrorAndContinue = true ∧
    DispatchAction.logsToStderr .perrorAndContinue = true := by
  refine ⟨by decide, by decide, by decide, by decide, by decide⟩

/-- C4 counterexample: with caller path `"//a/b"` the emitted request
line is `"GET //a/b HTTP/1.1\r\n"` — two slashes before `"a/b"` — and
not the single-slash line the claim requires. -/
theorem C4_leading_slash_counterexample :
    request_line .HTTP_GET (chars "//a/b") = chars "GET //a/b HTTP/1.1\r\n" ∧
    chars "GET //a/b HTTP/1.1\r\n" ≠ chars "GET /a/b HTTP/1.1\r\n" := by
  constructor
  · decide
  · decide

/-- C4 (amended): `send_req` always prints one slash of its own and
skips at most one caller-supplied leading slash: a path with no leading
slash and a path with exactly one leading slash both produce exactly
one slash on the wire, but each leading slash beyond the first is
preserved, as the first conjunct applied to a path that still starts
with `'/'` shows. -/
theorem C4_leading_slash_amended :
    (∀ (m : http_method) (p : List Char),
      request_line m ('/' :: p) =
        HTTP_METHOD_STRINGS m ++ (chars " /" ++ (p ++ chars " HTTP/1.1\r\n"))) ∧
    (∀ (m : http_method) (p : List Char), p.head? ≠ some '/' →
      request_line m p =
        HTTP_METHOD_STRINGS m ++ (chars " /" ++ (p ++ chars " HTTP/1.1\r\n"))) := by
  have hc : chars " HTTP/1.1" ++ crlf = chars " HTTP/1.1\r\n" := by decide
  constructor
  · intro m p
    unfold request_line
    simp only [List.head?_cons, List.tail_cons, reduceIte]
    rw [hc]
  · intro m p hp
    unfold request_line
    rw [if_neg hp, hc]

/-- C4 witness: the amended statement at the claim's own example paths
`"a/b"` and `"//a/b"`. -/
theorem C4_leading_slash_witness :
    request_line .HTTP_GET (chars "a/b") = chars "GET /a/b HTTP/1.1\r\n" ∧
    request_line .HTTP_GET (chars "//a/b") = chars "GET //a/b HTTP/1.1\r\n" := by
  constructor
  · rw [C4_leading_slash_amended.2 .HTTP_GET (chars "a/b") (by decide)]
    decide
  · have h : chars "//a/b" = '/' :: chars "/a/b" := by decide
    rw [h, C4_leading_slash_amended.1 .HTTP_GET (chars "/a/b")]
    decide

/-- C7: code bug, evaluated at the failing input.  When the stream ends
inside the header block (here after `"Host: x\r\n"`, before any blank
line), decoding fails with the generic `-1`, not the framing code `-3`
the dead `errno == EOF ? -3 : -1` branch intended: `errno` is
nonnegative and `EOF` is `-1`, so the comparison never succeeds. -/
theorem C7_eof_during_headers :
    recv_req_bytes (chars "GET / HTTP/1.1\r\nHost: x\r\n") = .error (-1) ∧
    extract_header [] = .error (-1) := by
  constructor
  · decide
  · decide

/-- C8: when the decoded method is not GET the server first sends a 501
response with no body and — the 501 branch does not return — still
resolves the filesystem path and serves the file, sending a second
response on the same connection. -/
theorem C8_non_get_falls_through (args : server_args) (fs : List Char → FileResult)
    (req : http_req) (hm : req.method ≠ .HTTP_GET) :
    server_handle_request args fs req =
      ⟨501, chars "Not implemented", false⟩ ::
        [serve_file (fs (resolve_path args req.path))] := by
  unfold server_handle_request
  rw [if_pos hm]
  rfl

/-- C8 witness: a POST for `/x` against a filesystem with no files gets
the bodyless 501 and then a second, 404 response. -/
theorem C8_non_get_witness :
    server_handle_request ⟨chars "/srv", chars "index.html"⟩ (fun _ => .notFound)
        ⟨.HTTP_POST, chars "/x", [], none⟩ =
      [⟨501, chars "Not implemented", false⟩, ⟨404, chars "Not Found", false⟩] := by
  rw [C8_non_get_falls_through ⟨chars "/srv", chars "index.html"⟩ (fun _ => .notFound)
    ⟨.HTTP_POST, chars "/x", [], none⟩ (by decide)]
  decide

/-- C9: the client exits 2 after a protocol-level decode failure
(`recv_res` returned `-2` or `-3`), and on a decoded status other than
200 it prints `"<code> <description>\n"` to standard error, writes no
body bytes to the output sink, and exits 3. -/
theorem C9_client_exit_codes :
    (∀ (e : Int) (b : List Char), e = -2 ∨ e = -3 →
      client_handle_response (.error e) b = ⟨2, chars "Protocol error!\n", []⟩) ∧
    (∀ (res : http_res) (b : List Char), res.status_code.code ≠ 200 →
      client_handle_response (.ok res) b =
        ⟨3, (toString res.status_code.code).data ++
              (' ' :: (res.status_code.description ++ ['\n'])), []⟩) := by
  constructor
  · intro e b he
    simp [client_handle_response, he]
  · intro res b hres
    simp [client_handle_response, hres]

/-- C9 witness: a 404 response makes the client print
`"404 Not Found\n"` to stderr, write nothing to the sink and exit 3;
a decode failure `-2` exits 2. -/
theorem C9_client_exit_codes_witness :
    client_handle_response (.error (-2)) (chars "x") = ⟨2, chars "Protocol error!\n", []⟩ ∧
    client_handle_response (.ok ⟨⟨404, chars "Not Found"⟩, []⟩) (chars "body") =
      ⟨3, chars "404 Not Found\n", []⟩ := by
  constructor
  · exact C9_client_exit_codes.1 (-2) (chars "x") (Or.inl rfl)
  · rw [C9_client_exit_codes.2 ⟨⟨404, chars "Not Found"⟩, []⟩ (chars "body") (by decide)]
    decide

/-! Lemmas for the status-line parse of `recv_res` and the general
header-line rule. -/

theorem digit_not_space {c : Char} (h : isDigitC c = true) : isSpaceC c = false := by
  by_contra hsp
  rw [Bool.not_eq_false] at hsp
  simp only [isSpaceC, Bool.or_eq_true, beq_iff_eq] at hsp
  rcases hsp with ((((rfl | rfl) | rfl) | rfl) | rfl) | rfl <;> exact absurd h (by decide)

theorem digit_ne_space {c : Char} (h : isDigitC c = true) : c ≠ ' ' := by
  rintro rfl
  exact absurd h (by decide)

theorem strtol10_digits (ds : List Char) (hne : ds ≠ [])
    (hds : ∀ c ∈ ds, isDigitC c = true) :
    strtol10 ds = ((digitsToNat ds : Int), []) := by
  obtain ⟨d, ds', rfl⟩ := List.exists_cons_of_ne_nil hne
  have hd := hds d (List.mem_cons_self d ds')
  have hminus : (d == '-') = false := by
    simp only [beq_eq_false_iff_ne]
    rintro rfl
    exact absurd hd (by decide)
  have hplus : (d == '+') = false := by
    simp only [beq_eq_false_iff_ne]
    rintro rfl
    exact absurd hd (by decide)
  have hws : (d :: ds').dropWhile isSpaceC = d :: ds' :=
    List.dropWhile_cons_of_neg (by simp [digit_not_space hd])
  have hdig : (d :: ds').takeWhile isDigitC = d :: ds' := takeWhile_of_all hds
  have e1 : (some d == some '-') = (d == '-') := rfl
  have e2 : (some d == some '+') = (d == '+') := rfl
  unfold strtol10
  rw [hws]
  simp only [List.head?_cons, e1, e2, hminus, hplus, Bool.or_self, Bool.false_eq_true,
    if_false]
  rw [hdig]
  simp only [List.isEmpty_cons, Bool.false_eq_true, if_false, List.drop_length]

theorem dropWhile_space_replicate (k : Nat) (r : List Char) :
    (List.replicate k ' ' ++ r).dropWhile (fun c => c == ' ') =
      r.dropWhile (fun c => c == ' ') := by
  induction k with
  | zero => rfl
  | succ k ih =>
    rw [List.replicate_succ, List.cons_append, List.dropWhile_cons_of_pos (by simp)]
    exact ih

theorem takeWhile_no_crlf (v : List Char) (hv : ∀ c ∈ v, c ≠ '\r' ∧ c ≠ '\n') :
    (v ++ crlf).takeWhile (fun c => !(c == '\r' || c == '\n')) = v := by
  have hv' : ∀ x ∈ v, (!(x == '\r' || x == '\n')) = true := by
    intro x hx
    have := hv x hx
    simp [this.1, this.2]
  have h : v ++ crlf = v ++ '\r' :: ['\n'] := rfl
  rw [h, takeWhile_append_stop '\r' ['\n'] hv' (by simp)]

theorem recv_res_status_line (ds desc : List Char) (rest : List (List Char))
    (hne : ds ≠ []) (hds : ∀ c ∈ ds, isDigitC c = true)
    (hdesc : ∀ c ∈ desc, c ≠ '\r' ∧ c ≠ '\n') :
    recv_res ((chars "HTTP/1.1" ++ (' ' :: (ds ++ (' ' :: (desc ++ crlf))))) :: rest) =
      match extract_header rest with
      | .ok hs => .ok ⟨⟨(digitsToNat ds : Int), desc⟩, hs⟩
      | .error e => .error e := by
  have hst1 : strtok_r (chars "HTTP/1.1" ++ (' ' :: (ds ++ (' ' :: (desc ++ crlf))))) =
      some (chars "HTTP/1.1", ds ++ (' ' :: (desc ++ crlf))) :=
    strtok_r_sep _ (by decide) (by decide)
  have hst2 : strtok_r (ds ++ (' ' :: (desc ++ crlf))) = some (ds, desc ++ crlf) :=
    strtok_r_sep _ hne (fun x hx => digit_ne_space (hds x hx))
  have hstl : strtol10 ds = ((digitsToNat ds : Int), []) := strtol10_digits ds hne hds
  have hsave : ¬(desc ++ crlf = []) := by simp [crlf]
  simp only [recv_res, hst1, reduceIte, hst2, hstl, if_neg hsave,
    takeWhile_no_crlf desc hdesc]

/-- C5 counterexample: the status line `"HTTP/1.1 200\r\n"` — no
description and no space after the code — is rejected by `recv_res`
with the malformed-head error `-2` instead of being accepted with an
empty description: the second `strtok_r` token is `"200\r\n"`, so
`strtol` leaves `"\r\n"` as trailing garbage behind the integer. -/
theorem C5_status_line_counterexample :
    recv_res_bytes (chars "HTTP/1.1 200\r\n\r\n") = .error (-2) ∧
    recv_res_bytes (chars "HTTP/1.1 200\r\n\r\n") ≠
      .ok ⟨⟨200, []⟩, []⟩ := by
  constructor
  · decide
  · decide

/-- C5 (amended): `recv_res` succeeds on every status line of the form
`"HTTP/1.1 <code> <description>\r\n"` whose code token is all digits
and whose description (possibly empty, possibly containing further
spaces) is free of CR and LF, storing code and description; with
trailing garbage after the integer it fails with malformed-head `-2`;
an empty description is accepted only when a space still separates the
code from the CRLF (`"HTTP/1.1 200 \r\n"` gives description `""`),
while `"HTTP/1.1 200\r\n"` is rejected with `-2` because the CR is
trailing garbage after the integer. -/
theorem C5_status_line_amended :
    (∀ (ds desc : List Char) (rest : List (List Char)),
      ds ≠ [] → (∀ c ∈ ds, isDigitC c = true) →
      (∀ c ∈ desc, c ≠ '\r' ∧ c ≠ '\n') →
      recv_res ((chars "HTTP/1.1" ++ (' ' :: (ds ++ (' ' :: (desc ++ crlf))))) :: rest) =
        match extract_header rest with
        | .ok hs => .ok ⟨⟨(digitsToNat ds : Int), desc⟩, hs⟩
        | .error e => .error e) ∧
    recv_res_bytes (chars "HTTP/1.1 200x OK\r\n\r\n") = .error (-2) ∧
    recv_res_bytes (chars "HTTP/1.1 200 \r\n\r\n") = .ok ⟨⟨200, []⟩, []⟩ ∧
    recv_res_bytes (chars "HTTP/1.1 200\r\n\r\n") = .error (-2) := by
  refine ⟨recv_res_status_line, by decide, by decide, by decide⟩

/-- C5 witness: the amended success case at the concrete status line
`"HTTP/1.1 200 OK\r\n"` followed by an empty header block. -/
theorem C5_status_line_witness :
    recv_res [chars "HTTP/1.1 200 OK\r\n", crlf] = .ok ⟨⟨200, chars "OK"⟩, []⟩ := by
  have h : chars "HTTP/1.1 200 OK\r\n" =
      chars "HTTP/1.1" ++ (' ' :: (chars "200" ++ (' ' :: (chars "OK" ++ crlf)))) := by
    decide
  rw [h, C5_status_line_amended.1 (chars "200") (chars "OK") [crlf]
    (by decide) (by decide) (by decide)]
  decide

/-- C6 counterexample: the header line `"k:a\rb\r\n"` — an interior CR
not followed by LF — decodes to value `"a"`, because
`strcspn(value, "\r\n")` cuts at the FIRST CR or LF, not at the
trailing `"\r\n"` the claim prescribes, which would give `"a\rb"`. -/
theorem C6_header_value_counterexample :
    extract_header [chars "k:a\rb\r\n", crlf] = .ok [⟨chars "k", chars "a"⟩] ∧
    (⟨chars "k", chars "a"⟩ : http_header) ≠ ⟨chars "k", chars "a\rb"⟩ := by
  constructor
  · decide
  · decide

/-- C6 (amended): for every header line read by `extract_header`: a
line equal to exactly `"\r\n"` ends the loop with the headers collected
so far; any other line must contain `':'` — otherwise the result is the
malformed-headers error `-3`; the key is the text before the first
`':'` with no trimming; and the value is the text after the colon with
all contiguous leading spaces stripped, up to but excluding the first
CR or LF (for a line whose only CR is in the trailing `"\r\n"` this is
the text up to the trailing CRLF). -/
theorem C6_header_line_rules :
    (∀ rest : List (List Char), extract_header (crlf :: rest) = .ok []) ∧
    (∀ (line : List Char) (rest : List (List Char)), line ≠ crlf →
      (∀ c ∈ line, c ≠ ':') → extract_header (line :: rest) = .error (-3)) ∧
    (∀ (k v : List Char) (s : Nat) (rest : List (List Char)),
      (∀ x ∈ k, x ≠ ':') → v.head? ≠ some ' ' →
      extract_header ((k ++ (':' :: (List.replicate s ' ' ++ v))) :: rest) =
        match extract_header rest with
        | .ok hs =>
          .ok (⟨k, v.takeWhile (fun c => !(c == '\r' || c == '\n'))⟩ :: hs)
        | .error e => .error e) := by
  refine ⟨?_, ?_, ?_⟩
  · intro rest
    rfl
  · intro line rest hcr hk
    have hk' : ∀ x ∈ line, (x != ':') = true := by
      intro x hx
      simpa using hk x hx
    have hdrop : line.dropWhile (fun c => c != ':') = [] := by
      rw [List.dropWhile_eq_nil_iff]
      exact hk'
    simp only [extract_header, if_neg hcr, hdrop]
    rfl
  · intro k v s rest hk hv1
    rw [extract_header_cons_line k (List.replicate s ' ' ++ v) rest hk]
    rw [dropWhile_space_replicate]
    rw [dropWhile_head_stop (by
      cases hval : v with
      | nil => rfl
      | cons a v' =>
        have : a ≠ ' ' := by
          intro h'
          exact hv1 (by rw [hval, h']; rfl)
        simp [this])]

/-- C6 witness: the amended rules at the spec's own example line
`"X-Test:   value\r\n"`: key `"X-Test"`, all three leading spaces
stripped, value `"value"`. -/
theorem C6_header_line_rules_witness :
    extract_header [chars "X-Test:   value\r\n", crlf] =
      .ok [⟨chars "X-Test", chars "value"⟩] := by
  have h : chars "X-Test:   value\r\n" =
      chars "X-Test" ++ (':' :: (List.replicate 3 ' ' ++ chars "value\r\n")) := by decide
  rw [h, C6_header_line_rules.2.2 (chars "X-Test") (chars "value\r\n") 3 [crlf]
    (by decide) (by decide)]
  decide

/-- C10: `recv_req` treats any positive run of spaces between the
method, path and protocol tokens of the request line as a single
separator: decoding the variant with `a+1` and `b+1` separating spaces
gives exactly the same result as decoding the single-space form, for
all space-free nonempty tokens and any remaining lines. -/
theorem C10_multi_space_request_line (t1 t2 t3 : List Char) (a b : Nat)
    (rest : List (List Char))
    (h1 : t1 ≠ [] ∧ ∀ x ∈ t1, x ≠ ' ') (h2 : t2 ≠ [] ∧ ∀ x ∈ t2, x ≠ ' ')
    (h3 : t3 ≠ [] ∧ ∀ x ∈ t3, x ≠ ' ') :
    recv_req ((t1 ++ (List.replicate (a + 1) ' ' ++
        (t2 ++ (List.replicate (b + 1) ' ' ++ t3)))) :: rest) =
      recv_req ((t1 ++ (' ' :: (t2 ++ (' ' :: t3)))) :: rest) := by
  have hra : List.replicate (a + 1) ' ' ++ (t2 ++ (List.replicate (b + 1) ' ' ++ t3)) =
      ' ' :: (List.replicate a ' ' ++ (t2 ++ (List.replicate (b + 1) ' ' ++ t3))) := by
    rw [List.replicate_succ, List.cons_append]
  have hrb : List.replicate (b + 1) ' ' ++ t3 = ' ' :: (List.replicate b ' ' ++ t3) := by
    rw [List.replicate_succ, List.cons_append]
  have e1 : strtok_r (t1 ++ (List.replicate (a + 1) ' ' ++
      (t2 ++ (List.replicate (b + 1) ' ' ++ t3)))) =
      some (t1, List.replicate a ' ' ++ (t2 ++ (List.replicate (b + 1) ' ' ++ t3))) := by
    rw [hra]
    exact strtok_r_sep _ h1.1 h1.2
  have e2 : strtok_r (List.replicate a ' ' ++ (t2 ++ (List.replicate (b + 1) ' ' ++ t3))) =
      some (t2, List.replicate b ' ' ++ t3) := by
    rw [strtok_r_leading_spaces, hrb]
    exact strtok_r_sep _ h2.1 h2.2
  have e3 : strtok_r (List.replicate b ' ' ++ t3) = some (t3, []) := by
    rw [strtok_r_leading_spaces]
    exact strtok_r_whole h3.1 h3.2
  have f1 : strtok_r (t1 ++ (' ' :: (t2 ++ (' ' :: t3)))) =
      some (t1, t2 ++ (' ' :: t3)) := strtok_r_sep _ h1.1 h1.2
  have f2 : strtok_r (t2 ++ (' ' :: t3)) = some (t2, t3) := strtok_r_sep _ h2.1 h2.2
  have f3 : strtok_r t3 = some (t3, []) := strtok_r_whole h3.1 h3.2
  simp only [recv_req, e1, e2, e3, f1, f2, f3]

/-- C10 witness: the spec's single-space line `"GET /a/b HTTP/1.1"`
against the variant with three and four spaces: same decode result, and
the single-space form succeeds with method GET and path `/a/b`. -/
theorem C10_multi_space_witness :
    recv_req [chars "GET   /a/b    HTTP/1.1\r\n", crlf] =
      recv_req [chars "GET /a/b HTTP/1.1\r\n", crlf] ∧
    recv_req [chars "GET /a/b HTTP/1.1\r\n", crlf] =
      .ok ⟨.HTTP_GET, chars "/a/b", [], none⟩ := by
  constructor
  · have hl : chars "GET   /a/b    HTTP/1.1\r\n" =
        chars "GET" ++ (List.replicate (2 + 1) ' ' ++
          (chars "/a/b" ++ (List.replicate (3 + 1) ' ' ++ chars "HTTP/1.1\r\n"))) := by
      decide
    have hr : chars "GET /a/b HTTP/1.1\r\n" =
        chars "GET" ++ (' ' :: (chars "/a/b" ++ (' ' :: chars "HTTP/1.1\r\n"))) := by
      decide
    rw [hl, hr]
    exact C10_multi_space_request_line (chars "GET") (chars "/a/b")
      (chars "HTTP/1.1\r\n") 2 3 [crlf] ⟨by decide, by decide⟩ ⟨by decide, by decide⟩
      ⟨by decide, by decide⟩
  · decide
